import Mathlib

/-!
Verification of the redox-os bootloader-efi boot pipeline against its
specification.  The definitions below are shallow embeddings of the Rust
source; machine words are modelled as `Nat` with explicit bit operations,
physical memory written by the page-table builder is modelled as a function
from byte address to the 64-bit value stored there, and fallible operations
return `Option` or `Except`.
-/

namespace BootloaderEfi

/-! ## Page table construction (src/arch/x86_64/paging.rs, `paging_create`)

`paging_create` allocates `2 + 6` zeroed pages at `page_phys` and fills in a
PML4 (top-level) page, one PDP (directory-pointer) page and six PD
(directory) pages through raw 64-bit writes.  We model the written memory as
a function from byte address to stored 64-bit value, starting from the
zeroed allocation. -/

/-- A single 64-bit store at byte address `a`, as performed by `ptr::write`. -/
def w64 (m : Nat → Nat) (a v : Nat) : Nat → Nat :=
  fun x => if x = a then v else m x

theorem w64_hit (m : Nat → Nat) (a v : Nat) : w64 m a v a = v := by
  simp [w64]

theorem w64_miss (m : Nat → Nat) (a v x : Nat) (h : x ≠ a) : w64 m a v x = m x := by
  simp [w64, h]

/-- The directory loop of `paging_create` (src/arch/x86_64/paging.rs:60-65):
`for i in 0..pdp_count*512 { ptr::write((base + i*8) as *mut u64, entry); entry += 0x200000; }`
unrolled as a structural recursion on the remaining iteration count. -/
def pdLoop : Nat → Nat → Nat → (Nat → Nat) → Nat → Nat
  | 0, _, _, m => m
  | n + 1, base, entry, m => pdLoop n (base + 8) (entry + 0x200000) (w64 m base entry)

/-- The directory-pointer loop of `paging_create` (src/arch/x86_64/paging.rs:48-55):
`for i in 0..pdp_count { ptr::write((base + i*8) as *mut u64, (page_phys + 0x2000 + i*0x1000) | 1 << 1 | 1); }`. -/
def pdpLoop : Nat → Nat → Nat → Nat → (Nat → Nat) → Nat → Nat
  | 0, _, _, _, m => m
  | n + 1, page_phys, base, i, m =>
      pdpLoop n page_phys (base + 8) (i + 1)
        (w64 m base ((page_phys + 0x2000 + i * 0x1000) ||| (1 <<< 1) ||| 1))

/-- The memory written by `paging_create` (src/arch/x86_64/paging.rs:18-68) on a
fresh zeroed allocation of `2 + 6` pages at `page_phys`: the PML4 entries 0,
256 and 511, the first six PDP entries, and `6 * 512` large-page directory
entries. -/
def paging_create (page_phys : Nat) : Nat → Nat :=
  let m0 : Nat → Nat := fun _ => 0
  let m1 := w64 m0 page_phys ((page_phys + 0x1000) ||| (1 <<< 1) ||| 1)
  let m2 := w64 m1 (page_phys + 256 * 8) ((page_phys + 0x1000) ||| (1 <<< 1) ||| 1)
  let m3 := w64 m2 (page_phys + 511 * 8) (page_phys ||| (1 <<< 1) ||| 1)
  let m4 := pdpLoop 6 page_phys (page_phys + 4096) 0 m3
  pdLoop (6 * 512) (page_phys + 4096 + 4096) ((1 <<< 7) ||| (1 <<< 1) ||| 1) m4

/-- Addresses strictly below the directory base are untouched by the directory
loop. -/
theorem pdLoop_lower (n : Nat) : ∀ (base entry : Nat) (m : Nat → Nat) (a : Nat),
    a < base → pdLoop n base entry m a = m a := by
  induction n with
  | zero => intro base entry m a _; rfl
  | succ n ih =>
      intro base entry m a h
      simp only [pdLoop]
      rw [ih (base + 8) (entry + 0x200000) (w64 m base entry) a (by omega)]
      simp only [w64]
      rw [if_neg (by omega)]

/-- Value of the `k`-th directory entry written by the directory loop. -/
theorem pdLoop_read (n : Nat) : ∀ (base entry : Nat) (m : Nat → Nat) (k : Nat),
    k < n → pdLoop n base entry m (base + 8 * k) = entry + 0x200000 * k := by
  induction n with
  | zero => intro base entry m k h; omega
  | succ n ih =>
      intro base entry m k h
      simp only [pdLoop]
      cases k with
      | zero =>
          have hrw : base + 8 * 0 = base := by omega
          rw [hrw,
            pdLoop_lower n (base + 8) (entry + 0x200000) (w64 m base entry) base (by omega),
            w64_hit]
          omega
      | succ k =>
          have hrw : base + 8 * (k + 1) = (base + 8) + 8 * k := by ring
          rw [hrw, ih (base + 8) (entry + 0x200000) (w64 m base entry) k (by omega)]
          ring

/-- Addresses strictly below the directory-pointer base are untouched by the
directory-pointer loop. -/
theorem pdpLoop_lower (n : Nat) : ∀ (p base i : Nat) (m : Nat → Nat) (a : Nat),
    a < base → pdpLoop n p base i m a = m a := by
  induction n with
  | zero => intro p base i m a _; rfl
  | succ n ih =>
      intro p base i m a h
      simp only [pdpLoop]
      rw [ih p (base + 8) (i + 1) _ a (by omega)]
      simp only [w64]
      rw [if_neg (by omega)]

/-- Or-ing a value below `2 ^ n` into a multiple of `2 ^ n` is addition: the
bit ranges are disjoint. -/
theorem lor_mul_two_pow (n q a : Nat) (h : a < 2 ^ n) :
    (2 ^ n * q) ||| a = 2 ^ n * q + a := by
  apply Nat.eq_of_testBit_eq
  intro i
  rw [Nat.testBit_lor]
  by_cases hi : i < n
  · have h1 : Nat.testBit (2 ^ n * q) i = false := by
      have hmod := Nat.testBit_mod_two_pow (2 ^ n * q) n i
      rw [Nat.mul_mod_right] at hmod
      simpa [hi] using hmod.symm
    have h2 : Nat.testBit (2 ^ n * q + a) i = Nat.testBit a i := by
      have hmod := Nat.testBit_mod_two_pow (2 ^ n * q + a) n i
      rw [Nat.add_mod, Nat.mul_mod_right, Nat.zero_add, Nat.mod_mod_of_dvd,
        Nat.mod_eq_of_lt h] at hmod
      · simpa [hi] using hmod.symm
      · exact dvd_refl _
    rw [h1, h2, Bool.false_or]
  · have hn : n ≤ i := Nat.le_of_not_lt hi
    have ha : Nat.testBit a i = false :=
      Nat.testBit_lt_two_pow (lt_of_lt_of_le h (Nat.pow_le_pow_right (by omega) hn))
    rw [ha, Bool.or_false]
    obtain ⟨j, rfl⟩ := Nat.exists_eq_add_of_le hn
    have hdiv1 : (2 ^ n * q + a) / 2 ^ (n + j) = q / 2 ^ j := by
      rw [Nat.pow_add, ← Nat.div_div_eq_div_mul]
      congr 1
      rw [Nat.mul_add_div (Nat.two_pow_pos n), Nat.div_eq_of_lt h, Nat.add_zero]
    have hdiv2 : (2 ^ n * q) / 2 ^ (n + j) = q / 2 ^ j := by
      rw [Nat.pow_add, ← Nat.div_div_eq_div_mul]
      congr 1
      rw [Nat.mul_div_cancel_left q (Nat.two_pow_pos n)]
    rw [Nat.testBit_to_div_mod, Nat.testBit_to_div_mod, hdiv1, hdiv2]

/-- C1: in the PML4 written by `paging_create`, entry 0 and entry 256 are
bit-identical and both equal the PDP page's physical address (`page_phys +
0x1000`) or-ed with the present and writable bits; entry 511 equals the
PML4's own base or-ed with the same flags; and the `k`-th directory entry
(0-indexed across the six directory pages) equals `k * 2 MiB` or-ed with the
present, writable and large-page bits, for every `k < 6 * 512`. -/
theorem paging_create_layout (p : Nat) :
    (paging_create p p = paging_create p (p + 256 * 8) ∧
      paging_create p p = (p + 0x1000) ||| 3) ∧
    paging_create p (p + 511 * 8) = p ||| 3 ∧
    ∀ k, k < 6 * 512 →
      paging_create p (p + 2 * 4096 + 8 * k) =
        (k * 0x200000) ||| ((1 <<< 7) ||| (1 <<< 1) ||| 1) := by
  have hflags : ∀ x : Nat, x ||| (1 <<< 1) ||| 1 = x ||| 3 := by
    intro x
    rw [Nat.lor_assoc, show (1 <<< 1 ||| 1 : Nat) = 3 from by decide]
  have h0 : paging_create p p = (p + 0x1000) ||| 3 := by
    simp only [paging_create]
    rw [pdLoop_lower _ _ _ _ _ (by omega), pdpLoop_lower _ _ _ _ _ _ (by omega),
      w64_miss _ _ _ _ (by omega), w64_miss _ _ _ _ (by omega), w64_hit, hflags]
  have h256 : paging_create p (p + 256 * 8) = (p + 0x1000) ||| 3 := by
    simp only [paging_create]
    rw [pdLoop_lower _ _ _ _ _ (by omega), pdpLoop_lower _ _ _ _ _ _ (by omega),
      w64_miss _ _ _ _ (by omega), w64_hit, hflags]
  refine ⟨⟨by rw [h0, h256], h0⟩, ?_, ?_⟩
  · simp only [paging_create]
    rw [pdLoop_lower _ _ _ _ _ (by omega), pdpLoop_lower _ _ _ _ _ _ (by omega),
      w64_hit, hflags]
  · intro k hk
    have hrd : paging_create p (p + 2 * 4096 + 8 * k) =
        ((1 <<< 7) ||| (1 <<< 1) ||| 1) + 0x200000 * k := by
      simp only [paging_create]
      have haddr : p + 2 * 4096 + 8 * k = (p + 4096 + 4096) + 8 * k := by ring
      rw [haddr, pdLoop_read (6 * 512) _ _ _ k hk]
    rw [hrd]
    have hdisj : (2 ^ 21 * k) ||| 0x83 = 2 ^ 21 * k + 0x83 :=
      lor_mul_two_pow 21 k 0x83 (by norm_num)
    have hmask : (1 <<< 7) ||| (1 <<< 1) ||| 1 = (0x83 : Nat) := by decide
    rw [hmask]
    have hmul : k * 0x200000 = 2 ^ 21 * k := by ring
    rw [hmul, hdisj]
    omega

/-- Witness for `paging_create_layout` at the fixed table base `0x70000` used
by the app/loader stages, sampling directory entry `k = 5`. -/
theorem paging_create_layout_w :
    (5 < 6 * 512) ∧
    paging_create 0x70000 (0x70000 + 2 * 4096 + 8 * 5) =
      (5 * 0x200000) ||| ((1 <<< 7) ||| (1 <<< 1) ||| 1) :=
  ⟨by norm_num, (paging_create_layout 0x70000).2.2 5 (by norm_num)⟩

/-! ## Memory map classification (src/loader/mod.rs, `memory_map`)

`memory_map` zeroes the fixed `MemoryArea` buffer, asks the firmware for its
memory map, and — provided the firmware-declared descriptor size is at least
`size_of::<MemoryDescriptor>()` — writes one `MemoryArea` per descriptor.
The descriptor table is modelled as a list of decoded descriptors, the fixed
output buffer as the list of records written into it (pre-zeroed, so an
empty list means zero records). -/

/-- One firmware memory descriptor (`uefi::memory::MemoryDescriptor`); field
`ty` is the raw `u32` `Type` value. -/
structure MemoryDescriptor where
  ty : Nat
  PhysicalStart : Nat
  VirtualStart : Nat
  NumberOfPages : Nat
  Attribute : Nat
deriving DecidableEq

/-- The value of `size_of::<MemoryDescriptor>()`: `u32` type, 4 bytes padding, and four
`u64` fields. -/
def memoryDescriptorSize : Nat := 40

/-- UEFI memory type codes matched by the classifier
(`uefi::memory::MemoryType` discriminants). -/
def EfiLoaderCode : Nat := 1
def EfiLoaderData : Nat := 2
def EfiBootServicesCode : Nat := 3
def EfiBootServicesData : Nat := 4
def EfiConventionalMemory : Nat := 7

/-- Memory is free to use (src/loader/mod.rs:69). -/
def MEMORY_AREA_FREE : Nat := 1

/-- Memory is reserved (src/loader/mod.rs:72). -/
def MEMORY_AREA_RESERVED : Nat := 2

/-- A memory map area (src/loader/mod.rs:80-85). -/
structure MemoryArea where
  base_addr : Nat
  length : Nat
  _type : Nat
  acpi : Nat
deriving DecidableEq

/-- The `match descriptor_type` classification (src/loader/mod.rs:133-144):
loader and boot-services code/data and conventional memory are free,
everything else is reserved. -/
def classifyDescriptorType (t : Nat) : Nat :=
  if t = EfiLoaderCode ∨ t = EfiLoaderData ∨ t = EfiBootServicesCode ∨
      t = EfiBootServicesData ∨ t = EfiConventionalMemory then
    MEMORY_AREA_FREE
  else
    MEMORY_AREA_RESERVED

/-- The `MemoryArea` record written for one descriptor
(src/loader/mod.rs:146-151). -/
def descriptorToArea (d : MemoryDescriptor) : MemoryArea :=
  { base_addr := d.PhysicalStart
    length := d.NumberOfPages * 4096
    _type := classifyDescriptorType d.ty
    acpi := 0 }

/-- Function `memory_map` (src/loader/mod.rs:109-162): returns the records written to
the pre-zeroed fixed buffer together with the firmware map key.  When the
declared descriptor size is below the minimum record size, the map is treated
as unusable and only the key is returned. -/
def memory_map (descriptor_size : Nat) (descriptors : List MemoryDescriptor)
    (map_key : Nat) : List MemoryArea × Nat :=
  if memoryDescriptorSize ≤ descriptor_size then
    (descriptors.map descriptorToArea, map_key)
  else
    ([], map_key)

/-- C3: when the declared descriptor size is at least the minimum record
size, `memory_map` writes exactly one `MemoryArea` per firmware descriptor —
base equal to the descriptor's physical start, length equal to its page count
times 4096, free exactly for loader/boot-services code and data and
conventional memory, reserved otherwise — and the classification of each
record depends only on that descriptor's declared type. -/
theorem memory_map_classifies (ds key : Nat) (descriptors : List MemoryDescriptor)
    (h : memoryDescriptorSize ≤ ds) :
    (memory_map ds descriptors key).1.length = descriptors.length ∧
    (∀ i d, descriptors.get? i = some d →
      (memory_map ds descriptors key).1.get? i = some
        { base_addr := d.PhysicalStart
          length := d.NumberOfPages * 4096
          _type :=
            if d.ty = EfiLoaderCode ∨ d.ty = EfiLoaderData ∨
                d.ty = EfiBootServicesCode ∨ d.ty = EfiBootServicesData ∨
                d.ty = EfiConventionalMemory then MEMORY_AREA_FREE
            else MEMORY_AREA_RESERVED
          acpi := 0 }) ∧
    (∀ d e : MemoryDescriptor, d.ty = e.ty →
      (descriptorToArea d)._type = (descriptorToArea e)._type) := by
  refine ⟨?_, ?_, ?_⟩
  · simp [memory_map, h]
  · intro i d hd
    simp only [memory_map, if_pos h]
    rw [List.get?_map, hd]
    rfl
  · intro d e hde
    simp [descriptorToArea, classifyDescriptorType, hde]

/-- Witness for `memory_map_classifies`: a two-descriptor map with one
conventional-memory and one MMIO descriptor. -/
theorem memory_map_classifies_w :
    memoryDescriptorSize ≤ 48 ∧
    ((memory_map 48 [⟨7, 0x1000, 0, 2, 0⟩, ⟨11, 0x9000, 0, 1, 0⟩] 5).1.length = 2 ∧
      (memory_map 48 [⟨7, 0x1000, 0, 2, 0⟩, ⟨11, 0x9000, 0, 1, 0⟩] 5).1.get? 0 =
        some { base_addr := 0x1000, length := 2 * 4096, _type := MEMORY_AREA_FREE, acpi := 0 }) := by
  have h : memoryDescriptorSize ≤ 48 := by decide
  have hmain := memory_map_classifies 48 5 [⟨7, 0x1000, 0, 2, 0⟩, ⟨11, 0x9000, 0, 1, 0⟩] h
  refine ⟨h, hmain.1, ?_⟩
  have := hmain.2.1 0 ⟨7, 0x1000, 0, 2, 0⟩ rfl
  simpa using this

/-- C9: when the firmware-declared descriptor size is smaller than the
minimum record size, `memory_map` leaves the pre-zeroed buffer with zero
records but still returns the firmware map key. -/
theorem memory_map_degraded (ds key : Nat) (descriptors : List MemoryDescriptor)
    (h : ds < memoryDescriptorSize) :
    memory_map ds descriptors key = ([], key) := by
  simp [memory_map, Nat.not_le.mpr h]

/-- Witness for `memory_map_degraded`: a declared descriptor size of 24 with
a nonempty descriptor table yields zero areas and the key 77. -/
theorem memory_map_degraded_w :
    24 < memoryDescriptorSize ∧
    memory_map 24 [⟨7, 0, 0, 1, 0⟩] 77 = ([], 77) :=
  ⟨by decide, memory_map_degraded 24 77 [⟨7, 0, 0, 1, 0⟩] (by decide)⟩

/-! ## ACPI RSDP validation (src/arch/x86_64/mod.rs, `validate_rsdp`)

`validate_rsdp` reads `size_of::<Rsdp>() = 36` bytes at the candidate
address, checks the signature, the 8-bit wrapping checksum of the first 20
bytes, and — when the revision byte (offset 15) reports ACPI 2.0 — the
wrapping checksum of all 36 read bytes.  The captured length is the `length`
field (a little-endian `u32` at offset 20) for revision 2 and the fixed
structure size otherwise.  `mem` models the byte memory at the candidate
address. -/

/-- The signature bytes, ASCII for R S D space P T R space. -/
def rsdSignature : List Nat := [0x52, 0x53, 0x44, 0x20, 0x50, 0x54, 0x52, 0x20]

/-- 8-bit additive wrapping checksum, as accumulated with `u8::wrapping_add`. -/
def wrappingSum (l : List Nat) : Nat := l.foldl (fun s b => (s + b) % 256) 0

/-- Little-endian `u32` field read at byte offset `off`. -/
def readLE32 (bytes : List Nat) (off : Nat) : Nat :=
  bytes.getD off 0 + 256 * (bytes.getD (off + 1) 0 +
    256 * (bytes.getD (off + 2) 0 + 256 * bytes.getD (off + 3) 0))

/-- The value of `size_of::<Rsdp>()`: the packed struct of src/arch/x86_64/mod.rs:120-133. -/
def rsdpStructSize : Nat := 36

/-- Function `validate_rsdp` (src/arch/x86_64/mod.rs:119-165). -/
def validate_rsdp (mem : List Nat) : Option Nat :=
  let rsdp_bytes := mem.take rsdpStructSize
  if rsdp_bytes.take 8 ≠ rsdSignature then none
  else if wrappingSum (rsdp_bytes.take 20) ≠ 0 then none
  else if rsdp_bytes.getD 15 0 = 2 ∧ wrappingSum rsdp_bytes ≠ 0 then none
  else some (if rsdp_bytes.getD 15 0 = 2 then readLE32 rsdp_bytes 20 else rsdpStructSize)

theorem wrappingSum_aux (l : List Nat) :
    ∀ s : Nat, l.foldl (fun s b => (s + b) % 256) (s % 256) = (s + l.sum) % 256 := by
  induction l with
  | nil => intro s; simp
  | cons a t ih =>
      intro s
      simp only [List.foldl_cons, List.sum_cons]
      rw [Nat.mod_add_mod]   -- hope: s % 256 + a ... need (s % 256 + a) % 256 = (s + a) % 256
      have := ih (s + a)
      rw [this]
      ring_nf

/-- The wrapping checksum is the plain sum reduced mod 256. -/
theorem wrappingSum_eq (l : List Nat) : wrappingSum l = l.sum % 256 := by
  have := wrappingSum_aux l 0
  simpa [wrappingSum] using this

theorem take_set (l : List Nat) : ∀ (i b n : Nat), (l.set i b).take n = (l.take n).set i b := by
  induction l with
  | nil => intro i b n; simp
  | cons a t ih =>
      intro i b n
      cases i with
      | zero => cases n <;> simp
      | succ i => cases n <;> simp [ih]

theorem sum_set (l : List Nat) : ∀ (i b : Nat), i < l.length →
    (l.set i b).sum + l.getD i 0 = l.sum + b := by
  induction l with
  | nil => intro i b h; simp at h
  | cons a t ih =>
      intro i b h
      cases i with
      | zero => simp [List.getD]; omega
      | succ i =>
          simp only [List.set, List.sum_cons, List.getD_cons_succ]
          have := ih i b (by simpa using h)
          omega

theorem getD_take (l : List Nat) (i n : Nat) (h : i < n) :
    (l.take n).getD i 0 = l.getD i 0 := by
  simp only [List.getD_eq_getElem?_getD]
  rw [List.getElem?_take_of_lt h]

/-- Any list whose first-20-byte wrapping checksum is nonzero is rejected. -/
theorem validate_rsdp_none_of_sum20 (l : List Nat)
    (h : wrappingSum (l.take 20) ≠ 0) : validate_rsdp l = none := by
  have h20 : (l.take 36).take 20 = l.take 20 := by
    rw [List.take_take]
    congr 1
  simp only [validate_rsdp, rsdpStructSize, h20]
  split_ifs <;> rfl

/-- C4 counterexample input: a revision-2 candidate whose reported length is
40, whose signature, first-20 checksum and 36-byte structure checksum are all
valid, but whose checksum over the full reported 40 bytes is nonzero. -/
def rsdpCex : List Nat :=
  [0x52, 0x53, 0x44, 0x20, 0x50, 0x54, 0x52, 0x20,
   223, 0, 0, 0, 0, 0, 0, 2, 0, 0, 0, 0,
   40, 0, 0, 0, 0, 0, 0, 0, 0, 0, 0, 0,
   216, 0, 0, 0, 1, 0, 0, 0]

/-- C4 as stated is false: `validate_rsdp` accepts `rsdpCex`, a v2 candidate
whose reported length is 40, even though the additive checksum over the full
reported 40 bytes does not sum to zero — the v2 check covers only the fixed
36-byte structure, not the reported length. -/
theorem validate_rsdp_reported_length_cex :
    validate_rsdp rsdpCex = some 40 ∧
    rsdpCex.getD 15 0 = 2 ∧
    40 ≤ rsdpCex.length ∧
    wrappingSum (rsdpCex.take 40) ≠ 0 := by
  refine ⟨by decide, by decide, by decide, by decide⟩

/-- C4 (amended): `validate_rsdp` accepts iff the signature matches, the
first-20-byte checksum is zero mod 256, and — for revision-2 structures —
the checksum over the fixed 36-byte structure (not the reported length) is
zero mod 256; consequently any single-byte corruption within the first 20
bytes of an otherwise-valid structure is rejected. -/
theorem validate_rsdp_correct (mem : List Nat) (hlen : 36 ≤ mem.length) :
    ((validate_rsdp mem).isSome = true ↔
      (mem.take 8 = rsdSignature ∧ wrappingSum (mem.take 20) = 0 ∧
        (mem.getD 15 0 = 2 → wrappingSum (mem.take 36) = 0))) ∧
    (∀ i b, i < 20 → b < 256 → (∀ x ∈ mem, x < 256) → b ≠ mem.getD i 0 →
      (validate_rsdp mem).isSome = true → validate_rsdp (mem.set i b) = none) := by
  have htake8 : (mem.take 36).take 8 = mem.take 8 := by
    rw [List.take_take]
    congr 1
  have htake20 : (mem.take 36).take 20 = mem.take 20 := by
    rw [List.take_take]
    congr 1
  have hgetD15 : (mem.take 36).getD 15 0 = mem.getD 15 0 :=
    getD_take mem 15 36 (by omega)
  have hiff : (validate_rsdp mem).isSome = true ↔
      (mem.take 8 = rsdSignature ∧ wrappingSum (mem.take 20) = 0 ∧
        (mem.getD 15 0 = 2 → wrappingSum (mem.take 36) = 0)) := by
    simp only [validate_rsdp, rsdpStructSize]
    rw [htake8, htake20, hgetD15]
    split_ifs with h1 h2 h3 h4
    · refine iff_of_false (by simp) ?_
      rintro ⟨hsig, -, -⟩
      exact h1 hsig
    · refine iff_of_false (by simp) ?_
      rintro ⟨-, hsum, -⟩
      exact h2 hsum
    · refine iff_of_false (by simp) ?_
      rintro ⟨-, -, himp⟩
      exact h3.2 (himp h3.1)
    all_goals refine iff_of_true (by simp) ⟨not_not.mp h1, not_not.mp h2, ?_⟩
    all_goals exact fun hrev => Classical.byContradiction fun hns => h3 ⟨hrev, hns⟩
  refine ⟨hiff, ?_⟩
  intro i b hi hb hbytes hne hsome
  obtain ⟨hsig, hsum20, _⟩ := hiff.mp hsome
  apply validate_rsdp_none_of_sum20
  rw [take_set]
  intro h0
  have hlen20 : (mem.take 20).length = 20 := by
    rw [List.length_take]
    omega
  have hset := sum_set (mem.take 20) i b (by omega)
  have hgd : (mem.take 20).getD i 0 = mem.getD i 0 := getD_take mem i 20 hi
  rw [hgd] at hset
  have hmem : mem.getD i 0 < 256 := by
    have hig : i < mem.length := by omega
    rw [List.getD_eq_getElem?_getD, List.getElem?_eq_getElem hig]
    exact hbytes _ (List.getElem_mem hig)
  rw [wrappingSum_eq] at h0 hsum20
  omega

/-- A concrete valid revision-0 RSDP structure. -/
def rsdpV1 : List Nat :=
  [0x52, 0x53, 0x44, 0x20, 0x50, 0x54, 0x52, 0x20,
   225, 0, 0, 0, 0, 0, 0, 0, 0, 0, 0, 0,
   0, 0, 0, 0, 0, 0, 0, 0, 0, 0, 0, 0,
   0, 0, 0, 0]

/-- Witness for `validate_rsdp_correct`: `rsdpV1` is accepted, and corrupting
its byte 9 to the value 7 is rejected. -/
theorem validate_rsdp_correct_w :
    36 ≤ rsdpV1.length ∧ (validate_rsdp rsdpV1).isSome = true ∧
      validate_rsdp (rsdpV1.set 9 7) = none :=
  ⟨by decide, by decide,
    (validate_rsdp_correct rsdpV1 (by decide)).2 9 7 (by decide) (by decide)
      (by decide) (by decide) (by decide)⟩

/-! ## Partition selection (src/arch/x86_64/mod.rs, `get_correct_block_io`)

`get_correct_block_io` walks the firmware block-device handles and returns
the first bootable partition.  A handle is modelled by the fields the code
actually inspects: the logical-partition media flag and the partition-info
protocol record (`sys`, `rev`, `ty`, and the GPT/MBR payloads of the union).
The two `assert` panics and the final `panic!` are modelled as distinct
error outcomes. -/

/-- Modelled from the spec: the constants of the missing
src/arch/x86_64/partitions.rs.  Only their pairwise distinctness and equality
comparisons matter to the selection logic; the GUIDs are the EFI system
partition, the target (Redox) filesystem, and the foreign (Linux) filesystem
types. -/
def ESP_GUID : Nat := 0xC12A7328
def REDOX_FS_GUID : Nat := 0x52454441
def LINUX_FS_GUID : Nat := 0x0FC63DAF
def PARTITION_INFO_PROTOCOL_REVISION : Nat := 0x0001000
def partitionTyGpt : Nat := 2
def partitionTyMbr : Nat := 1

/-- The GPT payload of the partition-info union: only the partition-type GUID
is inspected. -/
structure GptEntry where
  part_ty_guid : Nat
deriving DecidableEq

/-- The MBR payload of the partition-info union: only the OS-type byte is
inspected. -/
structure MbrEntry where
  ty : Nat
deriving DecidableEq

/-- The partition-info protocol record fields read by the selection loop. -/
structure PartitionProto where
  rev : Nat
  ty : Nat
  sys : Nat
  gpt : GptEntry
  mbr : MbrEntry
deriving DecidableEq

/-- One enumerated block-device handle: the `LogicalPartition` media flag and
its partition-info record. -/
structure BlockHandle where
  logicalPartition : Bool
  part : PartitionProto
deriving DecidableEq

/-- The ways the selection loop can fail: the `assert_eq!` on the protocol
revision, the `assert_ne!` on re-detecting the EFI system partition, and the
final `panic!("Couldn't find handle for partition")`. -/
inductive SelectPanic
  | revMismatch
  | espDetected
  | noPartition
deriving DecidableEq

/-- Function `get_correct_block_io` (src/arch/x86_64/mod.rs:77-115; identical logic in
src/arch/aarch64/mod.rs:23-61), over the enumerated handles. -/
def get_correct_block_io : List BlockHandle → Except SelectPanic BlockHandle
  | [] => .error .noPartition
  | handle :: rest =>
    if !handle.logicalPartition then get_correct_block_io rest
    else if handle.part.sys = 1 then get_correct_block_io rest
    else if handle.part.rev ≠ PARTITION_INFO_PROTOCOL_REVISION then .error .revMismatch
    else if handle.part.ty = partitionTyGpt then
      if handle.part.gpt.part_ty_guid = ESP_GUID then .error .espDetected
      else if handle.part.gpt.part_ty_guid = REDOX_FS_GUID ∨
          handle.part.gpt.part_ty_guid = LINUX_FS_GUID then .ok handle
      else get_correct_block_io rest
    else if handle.part.ty = partitionTyMbr then
      if handle.part.mbr.ty = 0x83 then .ok handle else get_correct_block_io rest
    else get_correct_block_io rest

/-- A handle the loop passes over without selecting or panicking. -/
def skippable (h : BlockHandle) : Prop :=
  h.logicalPartition = false ∨ h.part.sys = 1 ∨
  (h.part.rev = PARTITION_INFO_PROTOCOL_REVISION ∧
    ((h.part.ty = partitionTyGpt ∧ h.part.gpt.part_ty_guid ≠ ESP_GUID ∧
        h.part.gpt.part_ty_guid ≠ REDOX_FS_GUID ∧ h.part.gpt.part_ty_guid ≠ LINUX_FS_GUID) ∨
      (h.part.ty = partitionTyMbr ∧ h.part.mbr.ty ≠ 0x83) ∨
      (h.part.ty ≠ partitionTyGpt ∧ h.part.ty ≠ partitionTyMbr)))

/-- C6: partition selection.  (i) A selected handle is a logical partition,
is not the firmware system partition, and is either a GPT entry with the
Redox or Linux filesystem type GUID or an MBR entry of type byte 0x83 — in
particular a GPT entry carrying the EFI-system-partition GUID is never
selected, the assertion turning it into a panic instead (ii); (iii) an
eligible handle at the head of the list is selected immediately (first match
wins); (iv) a skippable head is passed over without affecting the result;
and (v) exhausting all handles without a match is the fatal no-partition
panic. -/
theorem get_correct_block_io_spec :
    (∀ hs h, get_correct_block_io hs = .ok h →
      h.logicalPartition = true ∧ h.part.sys ≠ 1 ∧
        ((h.part.ty = partitionTyGpt ∧ h.part.gpt.part_ty_guid ≠ ESP_GUID ∧
            (h.part.gpt.part_ty_guid = REDOX_FS_GUID ∨ h.part.gpt.part_ty_guid = LINUX_FS_GUID)) ∨
          (h.part.ty = partitionTyMbr ∧ h.part.mbr.ty = 0x83))) ∧
    (∀ hs h rest, hs = h :: rest → h.logicalPartition = true → h.part.sys ≠ 1 →
      h.part.rev = PARTITION_INFO_PROTOCOL_REVISION → h.part.ty = partitionTyGpt →
      h.part.gpt.part_ty_guid = ESP_GUID →
      get_correct_block_io hs = .error .espDetected) ∧
    (∀ h rest, h.logicalPartition = true → h.part.sys ≠ 1 →
      h.part.rev = PARTITION_INFO_PROTOCOL_REVISION →
      ((h.part.ty = partitionTyGpt ∧
          (h.part.gpt.part_ty_guid = REDOX_FS_GUID ∨ h.part.gpt.part_ty_guid = LINUX_FS_GUID)) ∨
        (h.part.ty = partitionTyMbr ∧ h.part.mbr.ty = 0x83)) →
      get_correct_block_io (h :: rest) = .ok h) ∧
    (∀ h rest, skippable h → get_correct_block_io (h :: rest) = get_correct_block_io rest) ∧
    (∀ hs, (∀ h ∈ hs, skippable h) → get_correct_block_io hs = .error .noPartition) := by
  have hsel : ∀ hs h, get_correct_block_io hs = .ok h →
      h.logicalPartition = true ∧ h.part.sys ≠ 1 ∧
        ((h.part.ty = partitionTyGpt ∧ h.part.gpt.part_ty_guid ≠ ESP_GUID ∧
            (h.part.gpt.part_ty_guid = REDOX_FS_GUID ∨ h.part.gpt.part_ty_guid = LINUX_FS_GUID)) ∨
          (h.part.ty = partitionTyMbr ∧ h.part.mbr.ty = 0x83)) := by
    intro hs
    induction hs with
    | nil => intro h hok; simp [get_correct_block_io] at hok
    | cons hd rest ih =>
        intro h hok
        simp only [get_correct_block_io] at hok
        by_cases c1 : hd.logicalPartition = true
        case neg =>
          have hb : (!hd.logicalPartition) = true := by
            cases hx : hd.logicalPartition
            · rfl
            · exact absurd hx c1
          rw [if_pos hb] at hok
          exact ih h hok
        case pos =>
          have hb : ¬((!hd.logicalPartition) = true) := by
            rw [c1]
            decide
          rw [if_neg hb] at hok
          by_cases c2 : hd.part.sys = 1
          · rw [if_pos c2] at hok
            exact ih h hok
          · rw [if_neg c2] at hok
            by_cases c3 : hd.part.rev ≠ PARTITION_INFO_PROTOCOL_REVISION
            · rw [if_pos c3] at hok
              cases hok
            · rw [if_neg c3] at hok
              by_cases c4 : hd.part.ty = partitionTyGpt
              · rw [if_pos c4] at hok
                by_cases c5 : hd.part.gpt.part_ty_guid = ESP_GUID
                · rw [if_pos c5] at hok
                  cases hok
                · rw [if_neg c5] at hok
                  by_cases c6 : hd.part.gpt.part_ty_guid = REDOX_FS_GUID ∨
                      hd.part.gpt.part_ty_guid = LINUX_FS_GUID
                  · rw [if_pos c6] at hok
                    cases hok
                    exact ⟨c1, c2, Or.inl ⟨c4, c5, c6⟩⟩
                  · rw [if_neg c6] at hok
                    exact ih h hok
              · rw [if_neg c4] at hok
                by_cases c7 : hd.part.ty = partitionTyMbr
                · rw [if_pos c7] at hok
                  by_cases c8 : hd.part.mbr.ty = 0x83
                  · rw [if_pos c8] at hok
                    cases hok
                    exact ⟨c1, c2, Or.inr ⟨c7, c8⟩⟩
                  · rw [if_neg c8] at hok
                    exact ih h hok
                · rw [if_neg c7] at hok
                  exact ih h hok
  have hskip : ∀ h rest, skippable h →
      get_correct_block_io (h :: rest) = get_correct_block_io rest := by
    intro h rest hsk
    simp only [get_correct_block_io]
    rcases hsk with hl | hsys | ⟨hrev, hcase⟩
    · rw [if_pos (by simp [hl])]
    · by_cases hl : h.logicalPartition
      · rw [if_neg (by simp [hl]), if_pos hsys]
      · rw [if_pos (by simp [hl])]
    · by_cases hl : h.logicalPartition
      · by_cases hsys : h.part.sys = 1
        · rw [if_neg (by simp [hl]), if_pos hsys]
        · rcases hcase with ⟨hg, hesp, hr, hx⟩ | ⟨hm, hmt⟩ | ⟨hng, hnm⟩
          · rw [if_neg (by simp [hl]), if_neg hsys, if_neg (by simp [hrev]), if_pos hg,
              if_neg hesp, if_neg (by tauto)]
          · have hng : h.part.ty ≠ partitionTyGpt := by
              rw [hm]; decide
            rw [if_neg (by simp [hl]), if_neg hsys, if_neg (by simp [hrev]), if_neg hng,
              if_pos hm, if_neg hmt]
          · rw [if_neg (by simp [hl]), if_neg hsys, if_neg (by simp [hrev]), if_neg hng,
              if_neg hnm]
      · rw [if_pos (by simp [hl])]
  refine ⟨hsel, ?_, ?_, hskip, ?_⟩
  · intro hs h rest hhs hl hsys hrev hg hesp
    subst hhs
    simp only [get_correct_block_io]
    rw [if_neg (by simp [hl]), if_neg hsys, if_neg (by simp [hrev]), if_pos hg, if_pos hesp]
  · intro h rest hl hsys hrev hcase
    simp only [get_correct_block_io]
    rcases hcase with ⟨hg, hr⟩ | ⟨hm, hmt⟩
    · have hesp : h.part.gpt.part_ty_guid ≠ ESP_GUID := by
        rcases hr with hr | hr <;> rw [hr] <;> decide
      rw [if_neg (by simp [hl]), if_neg hsys, if_neg (by simp [hrev]), if_pos hg,
        if_neg hesp, if_pos hr]
    · have hng : h.part.ty ≠ partitionTyGpt := by
        rw [hm]; decide
      rw [if_neg (by simp [hl]), if_neg hsys, if_neg (by simp [hrev]), if_neg hng,
        if_pos hm, if_pos hmt]
  · intro hs hall
    induction hs with
    | nil => rfl
    | cons hd rest ih =>
        rw [hskip hd rest (hall hd (by simp))]
        exact ih (fun h hmem => hall h (by simp [hmem]))

/-- A concrete eligible handle: a logical GPT partition with the Redox
filesystem type GUID. -/
def redoxHandle : BlockHandle :=
  { logicalPartition := true
    part := { rev := PARTITION_INFO_PROTOCOL_REVISION, ty := partitionTyGpt, sys := 0,
              gpt := { part_ty_guid := REDOX_FS_GUID }, mbr := { ty := 0 } } }

/-- Witness for `get_correct_block_io_spec`: a non-logical handle is skipped
and the following Redox GPT handle is selected. -/
theorem get_correct_block_io_spec_w :
    get_correct_block_io [⟨false, redoxHandle.part⟩, redoxHandle] = .ok redoxHandle ∧
    get_correct_block_io [] = .error .noPartition := by
  have hspec := get_correct_block_io_spec
  constructor
  · rw [hspec.2.2.2.1 ⟨false, redoxHandle.part⟩ [redoxHandle] (Or.inl rfl)]
    exact hspec.2.2.1 redoxHandle [] rfl (by decide) rfl (Or.inl ⟨rfl, Or.inl rfl⟩)
  · exact hspec.2.2.2.2 [] (by simp)

/-! ## ACPI discovery scan (src/arch/x86_64/mod.rs, `find_acpi_table_pointers`)

`find_acpi_table_pointers` walks the firmware configuration tables with
`Iterator::find_map`, yielding `(VendorTable, false)` for the first table
whose vendor GUID is of the ACPI 1.0 kind and `(VendorTable, true)` for the
first of the ACPI 2.0 kind — whichever ACPI-kind entry comes first in table
order — and records at most that single entry. -/

/-- The vendor-GUID kinds distinguished by the scan; every non-ACPI kind is
collapsed into `other`. -/
inductive GuidKind
  | acpi
  | acpi2
  | other
deriving DecidableEq

/-- One firmware configuration-table entry: its vendor-GUID kind and the
`VendorTable` pointer. -/
structure ConfigTable where
  kind : GuidKind
  VendorTable : Nat
deriving DecidableEq

/-- The `find_map` closure of src/arch/x86_64/mod.rs:175. -/
def acpiProbe (t : ConfigTable) : Option (Nat × Bool) :=
  if t.kind = GuidKind.acpi then some (t.VendorTable, false)
  else if t.kind = GuidKind.acpi2 then some (t.VendorTable, true)
  else none

/-- The scan of `find_acpi_table_pointers` (src/arch/x86_64/mod.rs:167-188):
`cfg_tables.iter().find_map(...)`, whose at-most-one result is the only
candidate validated and recorded. -/
def find_acpi_table_pointers (tables : List ConfigTable) : Option (Nat × Bool) :=
  tables.findSome? acpiProbe

/-- An entry the scan reacts to: ACPI 1.0 or ACPI 2.0 vendor GUID. -/
def isAcpiKind (t : ConfigTable) : Bool :=
  t.kind = GuidKind.acpi ∨ t.kind = GuidKind.acpi2

/-- C8 counterexample: with a v1 entry (address 100) listed before a v2 entry
(address 200), the scan records the v1 entry — the v2 entry is not preferred,
contradicting the claim. -/
theorem find_acpi_v2_not_preferred_cex :
    find_acpi_table_pointers [⟨GuidKind.acpi, 100⟩, ⟨GuidKind.acpi2, 200⟩] = some (100, false) ∧
    (⟨GuidKind.acpi2, 200⟩ : ConfigTable) ∈
      [(⟨GuidKind.acpi, 100⟩ : ConfigTable), ⟨GuidKind.acpi2, 200⟩] ∧
    find_acpi_table_pointers [⟨GuidKind.acpi, 100⟩, ⟨GuidKind.acpi2, 200⟩] ≠ some (200, true) := by
  refine ⟨rfl, by simp, by decide⟩

/-- C8 (amended): the scan is a single forward pass that stops at the first
ACPI-kind entry in configuration-table order — regardless of whether it is
v1 or v2, so an earlier v1 entry wins over a later v2 entry — records at
most that one entry, and finds nothing when no ACPI-kind entry exists. -/
theorem find_acpi_first_match (tables : List ConfigTable) :
    (∀ t, tables.find? isAcpiKind = some t → t.kind = GuidKind.acpi →
      find_acpi_table_pointers tables = some (t.VendorTable, false)) ∧
    (∀ t, tables.find? isAcpiKind = some t → t.kind = GuidKind.acpi2 →
      find_acpi_table_pointers tables = some (t.VendorTable, true)) ∧
    (tables.find? isAcpiKind = none → find_acpi_table_pointers tables = none) ∧
    (find_acpi_table_pointers tables).toList.length ≤ 1 := by
  induction tables with
  | nil =>
      refine ⟨?_, ?_, ?_, ?_⟩
      · intro t ht _
        simp at ht
      · intro t ht _
        simp at ht
      · intro _
        rfl
      · simp [find_acpi_table_pointers]
  | cons hd rest ih =>
      by_cases hk : isAcpiKind hd = true
      · have hk2 := hk
        simp only [isAcpiKind, decide_eq_true_eq] at hk2
        refine ⟨?_, ?_, ?_, ?_⟩
        · intro t ht hkind
          rw [List.find?_cons_of_pos _ hk] at ht
          cases ht
          have hprobe : acpiProbe hd = some (hd.VendorTable, false) := by
            simp [acpiProbe, hkind]
          simp [find_acpi_table_pointers, List.findSome?_cons, hprobe]
        · intro t ht hkind
          rw [List.find?_cons_of_pos _ hk] at ht
          cases ht
          have hne : hd.kind ≠ GuidKind.acpi := by
            rw [hkind]
            decide
          have hprobe : acpiProbe hd = some (hd.VendorTable, true) := by
            simp [acpiProbe, hkind, hne]
          simp [find_acpi_table_pointers, List.findSome?_cons, hprobe]
        · intro ht
          rw [List.find?_cons_of_pos _ hk] at ht
          cases ht
        · rcases hk2 with hkind | hkind
          · have hprobe : acpiProbe hd = some (hd.VendorTable, false) := by
              simp [acpiProbe, hkind]
            simp [find_acpi_table_pointers, List.findSome?_cons, hprobe]
          · have hne : hd.kind ≠ GuidKind.acpi := by
              rw [hkind]
              decide
            have hprobe : acpiProbe hd = some (hd.VendorTable, true) := by
              simp [acpiProbe, hkind, hne]
            simp [find_acpi_table_pointers, List.findSome?_cons, hprobe]
      · have hkk : ¬(hd.kind = GuidKind.acpi) ∧ ¬(hd.kind = GuidKind.acpi2) := by
          have hx := hk
          simp only [isAcpiKind, decide_eq_true_eq] at hx
          push_neg at hx
          exact hx
        have hprobe : acpiProbe hd = none := by
          simp [acpiProbe, hkk.1, hkk.2]
        have hfs : find_acpi_table_pointers (hd :: rest) = find_acpi_table_pointers rest := by
          simp [find_acpi_table_pointers, List.findSome?_cons, hprobe]
        refine ⟨?_, ?_, ?_, ?_⟩
        · intro t ht hkind
          rw [List.find?_cons_of_neg _ hk] at ht
          rw [hfs]
          exact ih.1 t ht hkind
        · intro t ht hkind
          rw [List.find?_cons_of_neg _ hk] at ht
          rw [hfs]
          exact ih.2.1 t ht hkind
        · intro ht
          rw [List.find?_cons_of_neg _ hk] at ht
          rw [hfs]
          exact ih.2.2.1 ht
        · rw [hfs]
          exact ih.2.2.2

/-- Witness for `find_acpi_first_match`: a non-ACPI entry followed by a v2
entry at address 7 yields exactly that v2 entry. -/
theorem find_acpi_first_match_w :
    ([⟨GuidKind.other, 5⟩, ⟨GuidKind.acpi2, 7⟩] : List ConfigTable).find? isAcpiKind =
      some ⟨GuidKind.acpi2, 7⟩ ∧
    find_acpi_table_pointers [⟨GuidKind.other, 5⟩, ⟨GuidKind.acpi2, 7⟩] = some (7, true) := by
  constructor
  · decide
  · exact (find_acpi_first_match _).2.1 ⟨GuidKind.acpi2, 7⟩ (by decide) rfl

/-! ## Exiting boot services (src/arch/x86_64/mod.rs:53-58 and 282-285)

The boot sequence captures the memory map once and exits boot services once:
`let key = memory_map(); exit_boot_services(key);`.  `exit_boot_services`
calls the firmware once and discards the returned status (`let _ = ...`), so
control always falls through to interrupt-disable/paging.  The firmware is
modelled by the map key it hands out and by the status it returns for an
`ExitBootServices(key)` call (`false` = stale/invalid key). -/

/-- The firmware behaviour visible to the exit sequence. -/
structure Firmware where
  mapKey : Nat
  exitOk : Nat → Bool

/-- A firmware call made during the exit sequence, paired with the status
the firmware returned for it. -/
inductive FwCall
  | getMemoryMap
  | exitBootServices (key : Nat)
deriving DecidableEq

def isMapCall : FwCall → Bool
  | .getMemoryMap => true
  | _ => false

def isExitCall : FwCall → Bool
  | .exitBootServices _ => true
  | _ => false

/-- The block at src/arch/x86_64/mod.rs:282-285: one `memory_map()` call
(which performs one `GetMemoryMap` and returns the key) followed by one
`exit_boot_services(key)` (which performs one `ExitBootServices` and discards
its status, src/arch/x86_64/mod.rs:53-58).  The result is the list of
firmware calls with the status each returned, and the `Bool` is whether
control continues into the paging/enter blocks — always `true`, because the
status is discarded. -/
def exitBootServicesPhase (fw : Firmware) : List (FwCall × Bool) × Bool :=
  let key := fw.mapKey
  ([(FwCall.getMemoryMap, true), (FwCall.exitBootServices key, fw.exitOk key)], true)

/-- A firmware that reports every exit key as stale. -/
def staleFirmware : Firmware :=
  { mapKey := 42, exitOk := fun _ => false }

/-- C2 as stated is false: when the firmware reports the key as stale, the
loader does not retry the (capture map, exit) pair — it performs exactly one
capture and one exit, the stale status is discarded, and execution continues
(neither success-after-retry nor a fatal failure). -/
theorem exit_boot_services_no_retry_cex :
    ((exitBootServicesPhase staleFirmware).1.countP (fun c => isMapCall c.1) = 1 ∧
      (exitBootServicesPhase staleFirmware).1.countP (fun c => isExitCall c.1) = 1) ∧
    (FwCall.exitBootServices 42, false) ∈ (exitBootServicesPhase staleFirmware).1 ∧
    (exitBootServicesPhase staleFirmware).2 = true := by
  refine ⟨⟨rfl, rfl⟩, by simp [exitBootServicesPhase, staleFirmware], rfl⟩

/-- C2 (amended): for every firmware behaviour — in particular when the exit
status reports a stale key — the loader performs exactly one memory-map
capture and one exit-boot-services call, with the captured key, discards the
status, and proceeds; no retry and no fatal failure occur at this stage. -/
theorem exit_boot_services_single_attempt (fw : Firmware) :
    (exitBootServicesPhase fw).1 =
      [(FwCall.getMemoryMap, true), (FwCall.exitBootServices fw.mapKey, fw.exitOk fw.mapKey)] ∧
    (exitBootServicesPhase fw).1.countP (fun c => isMapCall c.1) = 1 ∧
    (exitBootServicesPhase fw).1.countP (fun c => isExitCall c.1) = 1 ∧
    (exitBootServicesPhase fw).2 = true :=
  ⟨rfl, rfl, rfl, rfl⟩

/-! ## Kernel image loading (src/arch/x86_64/mod.rs:197-262; the same loop
shape at src/arch/aarch64/mod.rs:70-126 and for the redoxfs fallback)

Both read strategies run the same loop: read a chunk, stop at the first
zero-length read, extend the accumulated buffer.  The source of bytes is
modelled by the successive chunks the backing `read` returns.  After the
loop, `inner` records `KERNEL_SIZE = kernel.len()` and reads the entry point
from the image with no comparison of the accumulated length against the
advertised file length. -/

/-- The chunked read loop (src/arch/x86_64/mod.rs:205-215 and 228-238):
stops at the first zero-length read (or when the source is exhausted, i.e.
yields zero-length reads from then on), accumulating the chunks read. -/
def loadLoop : List (List Nat) → List Nat → List Nat
  | [], kernel => kernel
  | buf :: rest, kernel =>
      if buf.length = 0 then kernel else loadLoop rest (kernel ++ buf)

/-- The load of one kernel-read strategy with advertised file length `len`
(src/arch/x86_64/mod.rs:200-218): the progress line divides by `len`
(a panic when `len = 0`, modelled as `none`); otherwise the loop result is
accepted as-is — the accumulated length is never compared against `len`. -/
def innerLoadKernel (len : Nat) (chunks : List (List Nat)) : Option (List Nat) :=
  if len = 0 then none else some (loadLoop chunks [])

/-- Running the loop through a prefix of nonempty chunks accumulates their
concatenation. -/
theorem loadLoop_append (pre : List (List Nat)) : ∀ (rest : List (List Nat)) (acc : List Nat),
    (∀ c ∈ pre, c ≠ []) → loadLoop (pre ++ rest) acc = loadLoop rest (acc ++ pre.flatten) := by
  induction pre with
  | nil => intro rest acc _; simp
  | cons c cs ih =>
      intro rest acc hall
      have hc : c ≠ [] := hall c (by simp)
      simp only [List.cons_append, loadLoop, List.flatten_cons, List.append_eq]
      rw [if_neg (by simpa [List.length_eq_zero] using hc)]
      rw [ih rest (acc ++ c) (fun x hx => hall x (by simp [hx]))]
      simp

/-- C5 as stated is false: a run advertising 10 bytes whose source delivers
a 5-byte chunk and then a terminating zero-length read is accepted — the
loop stops with a 5-byte buffer, no comparison against the advertised length
is made, and no error is raised. -/
theorem load_short_read_accepted_cex :
    innerLoadKernel 10 [[1, 2, 3, 4, 5], []] = some [1, 2, 3, 4, 5] ∧
    (5 : Nat) ≠ 10 := by
  exact ⟨rfl, by decide⟩

/-- C5 (amended): for any nonzero advertised length, each read strategy
terminates at the first zero-length read with the buffer equal to the
concatenation of the chunks read so far, and that buffer is accepted as the
kernel image without any comparison against the advertised length — a short
run is accepted, not treated as fatal. -/
theorem load_loop_accepts (len : Nat) (chunks pre post : List (List Nat))
    (hlen : 0 < len) (hsplit : chunks = pre ++ [] :: post) (hpre : ∀ c ∈ pre, c ≠ []) :
    innerLoadKernel len chunks = some pre.flatten := by
  subst hsplit
  unfold innerLoadKernel
  rw [if_neg (by omega)]
  congr 1
  rw [loadLoop_append pre ([] :: post) [] hpre]
  simp [loadLoop]

/-- Witness for `load_loop_accepts` at the counterexample run: 10 bytes
advertised, one 5-byte chunk delivered. -/
theorem load_loop_accepts_w :
    (0 < 10 ∧ (∀ c ∈ [[1, 2, 3, 4, 5]], c ≠ ([] : List Nat))) ∧
    innerLoadKernel 10 [[1, 2, 3, 4, 5], []] = some ([[1, 2, 3, 4, 5]] : List (List Nat)).flatten :=
  ⟨⟨by decide, by decide⟩,
    load_loop_accepts 10 [[1, 2, 3, 4, 5], []] [[1, 2, 3, 4, 5]] [] (by decide) rfl (by decide)⟩

/-! ## Kernel entry-point read (src/arch/x86_64/mod.rs:255-262;
src/loader/mod.rs:228-235)

`KERNEL_ENTRY = *(kernel.as_ptr().offset(0x18) as *const u64)` reads eight
bytes at fixed offset 0x18 of the loaded image, with no preceding length or
validity check.  `readLE64` models the raw read: `none` when the read falls
outside the image buffer. -/

/-- Little-endian `u64` read of 8 bytes at byte offset `off`; `none` models a
read beyond the buffer. -/
def readLE64 (bytes : List Nat) (off : Nat) : Option Nat :=
  if off + 8 ≤ bytes.length then
    some (((bytes.drop off).take 8).reverse.foldl (fun acc b => acc * 256 + b) 0)
  else none

/-- The copy step of `inner` after the load loop
(src/arch/x86_64/mod.rs:255-262): record `KERNEL_SIZE = kernel.len()` and
read `KERNEL_ENTRY` at offset 0x18 — unconditionally, with no size or
entry-point validity check between the load and the read. -/
def innerCopyKernel (kernel : List Nat) : Option (Nat × Nat) :=
  (readLE64 kernel 0x18).map (fun entry => (kernel.length, entry))

/-- The load phase end to end: load loop, then the unchecked entry read. -/
def innerLoadPhase (len : Nat) (chunks : List (List Nat)) : Option (Nat × Nat) :=
  (innerLoadKernel len chunks).bind innerCopyKernel

/-- C10: the entry point is read as an 8-byte value at fixed offset 0x18 with
no preceding bound or validity check — for every kernel image shorter than
0x20 bytes the read falls outside the image buffer, and such an image
reaches the read, e.g. a run delivering a single 5-byte chunk. -/
theorem kernel_entry_read_unchecked :
    (∀ kernel : List Nat, kernel.length < 0x20 →
      readLE64 kernel 0x18 = none ∧ innerCopyKernel kernel = none) ∧
    innerLoadPhase 10 [[1, 2, 3, 4, 5], []] = none := by
  have hoob : ∀ kernel : List Nat, kernel.length < 0x20 → readLE64 kernel 0x18 = none := by
    intro kernel hk
    unfold readLE64
    rw [if_neg (by omega)]
  refine ⟨fun kernel hk => ⟨hoob kernel hk, ?_⟩, ?_⟩
  · unfold innerCopyKernel
    rw [hoob kernel hk]
    rfl
  · rfl

/-- Witness for `kernel_entry_read_unchecked`: the empty image. -/
theorem kernel_entry_read_unchecked_w :
    ([] : List Nat).length < 0x20 ∧ innerCopyKernel [] = none :=
  ⟨by decide, (kernel_entry_read_unchecked.1 [] (by decide)).2⟩

/-! ## Mode-transition activation (src/arch/x86_64/paging.rs, `paging_enter`)

`paging_enter` performs four control-register writes in straight-line order:
CR4 (OSXSAVE, SSE/FXSR, global pages, PAE, PSE), then the EFER MSR
(long-mode enable bit 8 and no-execute bit 11), then CR3 (the page-table
root), then CR0 (paging bit 31, write-protect bit 16, protected-mode bit 0).
The activation is modelled as the trace of register writes it performs,
given the values read from the registers beforehand.  The bit positions are
those spelled out literally in src/app/paging.rs:39-63 and
src/loader/paging.rs:37-53 for the same flags. -/

inductive CtrlReg
  | cr4
  | efer
  | cr3
  | cr0
deriving DecidableEq

structure RegWrite where
  reg : CtrlReg
  value : Nat
deriving DecidableEq

def CR4_ENABLE_OS_XSAVE : Nat := 1 <<< 18
def CR4_ENABLE_SSE : Nat := 1 <<< 9
def CR4_ENABLE_GLOBAL_PAGES : Nat := 1 <<< 7
def CR4_ENABLE_PAE : Nat := 1 <<< 5
def CR4_ENABLE_PSE : Nat := 1 <<< 4
def CR0_ENABLE_PAGING : Nat := 1 <<< 31
def CR0_WRITE_PROTECT : Nat := 1 <<< 16
def CR0_PROTECTED_MODE : Nat := 1 <<< 0

/-- The register-write trace of `paging_enter(page_phys)`
(src/arch/x86_64/paging.rs:70-92), given the prior contents of CR4, EFER and
CR0 (each write ors new flags into the value read). -/
def paging_enter (page_phys cr4 efer cr0 : Nat) : List RegWrite :=
  [⟨CtrlReg.cr4, cr4 ||| (CR4_ENABLE_OS_XSAVE ||| CR4_ENABLE_SSE |||
      CR4_ENABLE_GLOBAL_PAGES ||| CR4_ENABLE_PAE ||| CR4_ENABLE_PSE)⟩,
   ⟨CtrlReg.efer, efer ||| ((1 <<< 11) ||| (1 <<< 8))⟩,
   ⟨CtrlReg.cr3, page_phys⟩,
   ⟨CtrlReg.cr0, cr0 ||| (CR0_ENABLE_PAGING ||| CR0_WRITE_PROTECT ||| CR0_PROTECTED_MODE)⟩]

theorem testBit_lor_right (a m i : Nat) (h : Nat.testBit m i = true) :
    Nat.testBit (a ||| m) i = true := by
  rw [Nat.testBit_lor, h, Bool.or_true]

/-- C7: `paging_enter` writes exactly CR4, EFER, CR3, CR0 in that order; the
CR4 write sets OSXSAVE (18), SSE (9), global pages (7), PAE (5) and PSE (4);
the EFER write sets NXE (11) and LME (8); the CR3 write loads the page-table
root; the CR0 write sets paging (31), write-protect (16) and protected mode
(0); and temporally, every CR4/EFER/CR3 write precedes every CR0 write that
enables paging, and every CR4/EFER write precedes every CR3 write — so
paging is never enabled before the address-extension and long-mode bits are
set and before the table root is loaded. -/
theorem paging_enter_order (p c4 ef c0 : Nat) :
    ((paging_enter p c4 ef c0).map RegWrite.reg =
      [CtrlReg.cr4, CtrlReg.efer, CtrlReg.cr3, CtrlReg.cr0]) ∧
    (∀ w, (paging_enter p c4 ef c0).get? 0 = some w →
      Nat.testBit w.value 18 = true ∧ Nat.testBit w.value 9 = true ∧
      Nat.testBit w.value 7 = true ∧ Nat.testBit w.value 5 = true ∧
      Nat.testBit w.value 4 = true) ∧
    (∀ w, (paging_enter p c4 ef c0).get? 1 = some w →
      Nat.testBit w.value 11 = true ∧ Nat.testBit w.value 8 = true) ∧
    ((paging_enter p c4 ef c0).get? 2 = some ⟨CtrlReg.cr3, p⟩) ∧
    (∀ w, (paging_enter p c4 ef c0).get? 3 = some w →
      Nat.testBit w.value 31 = true ∧ Nat.testBit w.value 16 = true ∧
      Nat.testBit w.value 0 = true) ∧
    (∀ i j wi wj, (paging_enter p c4 ef c0).get? i = some wi →
      (paging_enter p c4 ef c0).get? j = some wj →
      ((wi.reg = CtrlReg.cr0 ∧ Nat.testBit wi.value 31 = true ∧ wj.reg ≠ CtrlReg.cr0) ∨
        (wi.reg = CtrlReg.cr3 ∧ (wj.reg = CtrlReg.cr4 ∨ wj.reg = CtrlReg.efer))) →
      j < i) := by
  refine ⟨rfl, ?_, ?_, rfl, ?_, ?_⟩
  · intro w hw
    have hw2 : w = ⟨CtrlReg.cr4, c4 ||| (CR4_ENABLE_OS_XSAVE ||| CR4_ENABLE_SSE |||
        CR4_ENABLE_GLOBAL_PAGES ||| CR4_ENABLE_PAE ||| CR4_ENABLE_PSE)⟩ := by
      simpa [paging_enter] using hw.symm
    subst hw2
    exact ⟨testBit_lor_right _ _ _ (by decide), testBit_lor_right _ _ _ (by decide),
      testBit_lor_right _ _ _ (by decide), testBit_lor_right _ _ _ (by decide),
      testBit_lor_right _ _ _ (by decide)⟩
  · intro w hw
    have hw2 : w = ⟨CtrlReg.efer, ef ||| ((1 <<< 11) ||| (1 <<< 8))⟩ := by
      simpa [paging_enter] using hw.symm
    subst hw2
    exact ⟨testBit_lor_right _ _ _ (by decide), testBit_lor_right _ _ _ (by decide)⟩
  · intro w hw
    have hw2 : w = ⟨CtrlReg.cr0, c0 ||| (CR0_ENABLE_PAGING ||| CR0_WRITE_PROTECT |||
        CR0_PROTECTED_MODE)⟩ := by
      simpa [paging_enter] using hw.symm
    subst hw2
    exact ⟨testBit_lor_right _ _ _ (by decide), testBit_lor_right _ _ _ (by decide),
      testBit_lor_right _ _ _ (by decide)⟩
  · intro i j wi wj hi hj hcase
    have hi4 : i < 4 := by
      by_contra hge
      push_neg at hge
      rw [List.get?_eq_none.mpr (by simpa [paging_enter] using hge)] at hi
      cases hi
    have hj4 : j < 4 := by
      by_contra hge
      push_neg at hge
      rw [List.get?_eq_none.mpr (by simpa [paging_enter] using hge)] at hj
      cases hj
    interval_cases i <;> interval_cases j <;>
      simp only [paging_enter, List.get?] at hi hj <;>
      cases hi <;> cases hj <;>
      first
        | omega
        | simp at hcase

/-- Witness for `paging_enter_order` at the fixed table base `0x70000` with
zeroed initial registers: the CR0 paging-enabling write at index 3 follows
the CR3 root load at index 2. -/
theorem paging_enter_order_w :
    ((paging_enter 0x70000 0 0 0).get? 3 =
      some ⟨CtrlReg.cr0, 0 ||| (CR0_ENABLE_PAGING ||| CR0_WRITE_PROTECT |||
        CR0_PROTECTED_MODE)⟩) ∧
    (2 : Nat) < 3 :=
  ⟨rfl, (paging_enter_order 0x70000 0 0 0).2.2.2.2.2 3 2 _ _ rfl rfl
    (Or.inl ⟨rfl, by decide, by decide⟩)⟩

end BootloaderEfi
